import Mathlib

/-!
Shallow embedding of a small client-side application: a list of monitored
"tree" entities fetched from a remote API, the user's device position, and a
derived nearest-tree computation.  The embedding follows the three source
modules: the `Tree` record type, the location store (`locate_user`), and the
tree store (`fetch_trees` and the `closest_tree` getter).  JavaScript numbers
are modelled as real numbers; asynchronous callbacks are modelled as explicit
outcome-carrying step functions on state records.
-/

namespace DustApp

/-- The coordinate record used by the source (`Location` with `latitude` and
`longitude` fields). -/
structure Location where
  latitude : ℝ
  longitude : ℝ

/-- The `Tree` interface from the source: `id`, `name`, `description`,
`location`, `image_url`, `tree_url`. -/
structure Tree where
  id : String
  name : String
  description : String
  location : Location
  image_url : String
  tree_url : String

/-- The location store's state: the `locatable` flag (initially `false`) and
the user's current `location` (initially the placeholder `(51, 3)`). -/
structure LocationState where
  locatable : Bool
  location : Location

/-- The tree store's state: the fetched `trees` list (initially empty) and the
`loading` flag (initially `false`). -/
structure TreeState where
  trees : List Tree
  loading : Bool

/-- Initial state of the location store: `locatable = false`,
`location = {latitude: 51, longitude: 3}`. -/
def initialLocationState : LocationState :=
  { locatable := false, location := { latitude := 51, longitude := 3 } }

/-- Initial state of the tree store: `trees = []`, `loading = false`. -/
def initialTreeState : TreeState :=
  { trees := [], loading := false }

/-- Outcome of the geolocation callback: either a successful position fix with
the reported coordinates, or an error (permission denied, timeout, or
positioning error — the source treats all of these in the single error
callback). -/
inductive GeoOutcome
  | success (coords : Location)
  | failure

/-- The `locate_user` action of the location store.  `geolocationAvailable`
models the `navigator.geolocation` capability check: when it is absent the
action sets `locatable = false` and returns immediately without consulting any
callback outcome.  Otherwise the success callback overwrites both coordinate
fields and sets `locatable = true`, and the error callback sets
`locatable = false` leaving the location untouched. -/
def locate_user (s : LocationState) (geolocationAvailable : Bool)
    (outcome : GeoOutcome) : LocationState :=
  if !geolocationAvailable then
    { s with locatable := false }
  else
    match outcome with
    | .success geoLocation => { location := geoLocation, locatable := true }
    | .failure => { s with locatable := false }

/-- Outcome of the tree fetch request: either a successful response carrying
the payload's data array, or a rejected request. -/
inductive FetchOutcome
  | success (data : List Tree)
  | failure

/-- The synchronous prefix of `fetch_trees`: sets `loading = true` before the
request is issued. -/
def fetch_trees_start (s : TreeState) : TreeState :=
  { s with loading := true }

/-- The settling of the `fetch_trees` request: on success the `then` handler
replaces `trees` with the response payload and the `finally` handler clears
`loading`; on failure only the `finally` handler runs, clearing `loading` and
leaving `trees` untouched. -/
def fetch_trees_settle (s : TreeState) (outcome : FetchOutcome) : TreeState :=
  match outcome with
  | .success data => { trees := data, loading := false }
  | .failure => { s with loading := false }

/-- The planar distance computed inside `closest_tree`'s `map`:
`Math.sqrt(longDiff*longDiff + latDiff*latDiff)` where the differences are
taken between the tree's coordinates and the user's coordinates. -/
noncomputable def tree_distance (userLocation : Location) (tree : Tree) : ℝ :=
  let longDiff := tree.location.longitude - userLocation.longitude
  let latDiff := tree.location.latitude - userLocation.latitude
  Real.sqrt (longDiff * longDiff + latDiff * latDiff)

/-- One step of the `reduce` callback in `closest_tree`:
`(previousValue, currentValue, currentIndex) =>
  (currentValue < distances[previousValue] ? currentIndex : previousValue)`.
JavaScript indexing out of range yields `undefined` and a `<` comparison with
`undefined` is false, modelled by the `none` branch keeping `previousValue`. -/
noncomputable def iMinFold (distances : List ℝ) (previousValue : ℕ)
    (p : ℕ × ℝ) : ℕ :=
  match distances[previousValue]? with
  | some dPrev => if p.2 < dPrev then p.1 else previousValue
  | none => previousValue

/-- The index-of-smallest computation in `closest_tree`:
`distances.reduce(callback, 0)`, a left-to-right fold over the values paired
with their indices, starting from index `0`. -/
noncomputable def iMin (distances : List ℝ) : ℕ :=
  distances.enum.foldl (iMinFold distances) 0

/-- The `closest_tree` computed getter: returns `undefined` when the position
is not locatable, the store is loading, or the tree list is empty; otherwise
maps every tree to its planar distance from the user, takes the index of the
smallest distance via the left-to-right `reduce`, and returns the tree at that
index (JavaScript indexing, modelled as an optional lookup). -/
noncomputable def closest_tree (ts : TreeState) (ls : LocationState) :
    Option Tree :=
  if !ls.locatable || ts.loading || ts.trees.length == 0 then
    none
  else
    let distances := ts.trees.map (tree_distance ls.location)
    ts.trees[iMin distances]?

/-- Combined application state: the tree store and the location store. -/
structure AppState where
  treeState : TreeState
  locState : LocationState

/-- Events on the combined state: the synchronous start of a fetch, the
settling of a fetch, and the geolocation request together with its callback
(the geolocation path is single-shot, so request and callback form one
event). -/
inductive AppEvent
  | fetchStart
  | fetchSettle (outcome : FetchOutcome)
  | geoCallback (available : Bool) (outcome : GeoOutcome)

/-- Apply one event to the combined state.  Each event writes only the state
holder it belongs to. -/
def step (s : AppState) (e : AppEvent) : AppState :=
  match e with
  | .fetchStart => { s with treeState := fetch_trees_start s.treeState }
  | .fetchSettle o => { s with treeState := fetch_trees_settle s.treeState o }
  | .geoCallback avail o => { s with locState := locate_user s.locState avail o }

/-- Run a sequence of events from a starting state. -/
def run (s : AppState) (es : List AppEvent) : AppState :=
  es.foldl step s

/-- The resolver read on the combined state. -/
noncomputable def closest_of (s : AppState) : Option Tree :=
  closest_tree s.treeState s.locState

/-- Spec-side record, for the refinement comparison with `Tree`.  It follows
the spec's data model verbatim: a `Coordinate` is a latitude/longitude pair of
real numbers. -/
structure Coordinate where
  latitude : ℝ
  longitude : ℝ

/-- Spec-side record, for the refinement comparison with `Tree`: a
`MonitoredEntity` carries exactly `id`, `name`, `description`, `location`,
`image_url` and `detail_url`. -/
structure MonitoredEntity where
  id : String
  name : String
  description : String
  location : Coordinate
  image_url : String
  detail_url : String

/-- Field-for-field translation of a source `Tree` into the spec's
`MonitoredEntity`; the source's `tree_url` realises the spec's `detail_url`. -/
def treeToEntity (t : Tree) : MonitoredEntity :=
  { id := t.id
    name := t.name
    description := t.description
    location := { latitude := t.location.latitude
                  longitude := t.location.longitude }
    image_url := t.image_url
    detail_url := t.tree_url }

/-- Inverse translation of `treeToEntity`. -/
def entityToTree (e : MonitoredEntity) : Tree :=
  { id := e.id
    name := e.name
    description := e.description
    location := { latitude := e.location.latitude
                  longitude := e.location.longitude }
    image_url := e.image_url
    tree_url := e.detail_url }

/-! ### Properties of the index-of-smallest fold -/

/-- Invariant of the left-to-right `reduce`: starting from an in-range
accumulator that is minimal over the already-scanned prefix and strictly
smaller than every entry before it, the fold over the remaining suffix yields
an in-range index that is minimal over the whole list and strictly smaller
than every entry before it (so ties keep the earlier index). -/
theorem iMin_go (d : List ℝ) (tail : List ℝ) :
    ∀ (k acc : ℕ), d.drop k = tail → acc < d.length →
      (∀ j, j < k → d.getD acc 0 ≤ d.getD j 0) →
      (∀ j, j < acc → d.getD acc 0 < d.getD j 0) →
      (tail.enumFrom k).foldl (iMinFold d) acc < d.length ∧
      (∀ j, j < d.length →
        d.getD ((tail.enumFrom k).foldl (iMinFold d) acc) 0 ≤ d.getD j 0) ∧
      (∀ j, j < (tail.enumFrom k).foldl (iMinFold d) acc →
        d.getD ((tail.enumFrom k).foldl (iMinFold d) acc) 0 < d.getD j 0) := by
  induction tail with
  | nil =>
    intro k acc hdrop hacc hmin hleft
    have hk : d.length ≤ k := List.drop_eq_nil_iff.mp hdrop
    exact ⟨hacc, fun j hj => hmin j (lt_of_lt_of_le hj hk), hleft⟩
  | cons x t ih =>
    intro k acc hdrop hacc hmin hleft
    have hk : k < d.length := by
      by_contra hkn
      have hnil : d.drop k = [] := List.drop_eq_nil_iff.mpr (le_of_not_lt hkn)
      rw [hdrop] at hnil
      exact List.cons_ne_nil x t hnil
    have hxk : d.getD k 0 = x := by
      have h1 : (d.drop k).head? = d[k]? := List.head?_drop d k
      rw [hdrop, List.getElem?_eq_getElem hk] at h1
      have h2 : d[k] = x := Option.some.inj h1.symm
      rw [List.getD_eq_getElem d 0 hk, h2]
    have ht : d.drop (k + 1) = t := by
      have h1 : (d.drop k).drop 1 = t := by rw [hdrop]; rfl
      rw [List.drop_drop] at h1
      simpa [Nat.add_comm] using h1
    have hstep : ((x :: t).enumFrom k).foldl (iMinFold d) acc
        = (t.enumFrom (k + 1)).foldl (iMinFold d) (iMinFold d acc (k, x)) := rfl
    have hfold : iMinFold d acc (k, x) = if x < d.getD acc 0 then k else acc := by
      unfold iMinFold
      rw [List.getElem?_eq_getElem hacc, List.getD_eq_getElem d 0 hacc]
    by_cases hcmp : x < d.getD acc 0
    · have hnew : iMinFold d acc (k, x) = k := by rw [hfold, if_pos hcmp]
      rw [hstep, hnew]
      refine ih (k + 1) k ht hk ?_ ?_
      · intro j hj
        rcases Nat.lt_succ_iff_lt_or_eq.mp hj with hj | hj
        · exact le_of_lt (lt_of_lt_of_le (hxk ▸ hcmp) (hmin j hj))
        · rw [hj]
      · intro j hj
        exact lt_of_lt_of_le (hxk ▸ hcmp) (hmin j hj)
    · have hnew : iMinFold d acc (k, x) = acc := by rw [hfold, if_neg hcmp]
      rw [hstep, hnew]
      refine ih (k + 1) acc ht hacc ?_ hleft
      intro j hj
      rcases Nat.lt_succ_iff_lt_or_eq.mp hj with hj | hj
      · exact hmin j hj
      · rw [hj, hxk]
        exact le_of_not_lt hcmp

/-- Specification of `iMin` on a non-empty list of distances: the result is in
range, the distance at the result is minimal, and every entry strictly before
the result is strictly larger (leftmost tie-break). -/
theorem iMin_spec (d : List ℝ) (h : d ≠ []) :
    iMin d < d.length ∧
    (∀ j, j < d.length → d.getD (iMin d) 0 ≤ d.getD j 0) ∧
    (∀ j, j < iMin d → d.getD (iMin d) 0 < d.getD j 0) := by
  have h0 : 0 < d.length := List.length_pos.mpr h
  have hgo := iMin_go d d 0 0 (by simp) h0
    (fun j hj => absurd hj (Nat.not_lt_zero j))
    (fun j hj => absurd hj (Nat.not_lt_zero j))
  simpa [iMin, List.enum] using hgo

/-- The distances list evaluated at an in-range index is the planar distance
of the corresponding tree. -/
theorem distances_getD (ls : LocationState) (trees : List Tree) (j : ℕ)
    (hj : j < trees.length) :
    (trees.map (tree_distance ls.location)).getD j 0
      = tree_distance ls.location (trees.get ⟨j, hj⟩) := by
  have hj2 : j < (trees.map (tree_distance ls.location)).length := by simpa using hj
  rw [List.getD_eq_getElem _ 0 hj2, List.getElem_map, List.get_eq_getElem]

/-- When all three guards pass, `closest_tree` is the tree at the index of the
smallest distance. -/
theorem closest_tree_eq (ts : TreeState) (ls : LocationState)
    (hloc : ls.locatable = true) (hload : ts.loading = false)
    (hne : ts.trees ≠ []) :
    closest_tree ts ls
      = ts.trees[iMin (ts.trees.map (tree_distance ls.location))]? := by
  have hlen : ts.trees.length ≠ 0 := fun h => hne (List.length_eq_zero.mp h)
  unfold closest_tree
  simp [hloc, hload, hlen]

/-! ### Claim theorems -/

/-- C1: for every non-empty, non-loading tree collection and locatable user
position, `closest_tree` returns a tree of the collection minimizing the
planar distance metric `sqrt((lon - userLon)^2 + (lat - userLat)^2)` over all
trees in the collection. -/
theorem closest_tree_minimizes (ts : TreeState) (ls : LocationState)
    (hloc : ls.locatable = true) (hload : ts.loading = false)
    (hne : ts.trees ≠ []) :
    ∃ t, closest_tree ts ls = some t ∧ t ∈ ts.trees ∧
      ∀ u ∈ ts.trees,
        tree_distance ls.location t ≤ tree_distance ls.location u := by
  set d := ts.trees.map (tree_distance ls.location) with hd
  have hdne : d ≠ [] := by
    rw [hd]
    simpa [List.map_eq_nil_iff] using hne
  obtain ⟨hbound, hminim, _⟩ := iMin_spec d hdne
  have hlen : d.length = ts.trees.length := by rw [hd]; exact List.length_map _ _
  have hb2 : iMin d < ts.trees.length := hlen ▸ hbound
  refine ⟨ts.trees.get ⟨iMin d, hb2⟩, ?_, List.get_mem _ _ _, ?_⟩
  · rw [closest_tree_eq ts ls hloc hload hne, ← hd,
      List.getElem?_eq_getElem hb2, List.get_eq_getElem]
  · intro u hu
    obtain ⟨j, hj, hju⟩ := List.getElem_of_mem hu
    have h1 := distances_getD ls ts.trees (iMin d) hb2
    have h2 := distances_getD ls ts.trees j hj
    rw [← hd] at h1 h2
    have h3 := hminim j (hlen ▸ hj)
    rw [h1, h2] at h3
    rw [← hju]
    simpa [List.get_eq_getElem] using h3

/-- C2: `closest_tree` implements the leftmost tie-break: the returned index
is minimal-distance, and every tree strictly before it in the collection's
order has a strictly greater distance, so among trees attaining the minimal
distance the first in iteration order wins. -/
theorem closest_tree_first_of_ties (ts : TreeState) (ls : LocationState)
    (hloc : ls.locatable = true) (hload : ts.loading = false)
    (hne : ts.trees ≠ []) :
    ∃ i, ∃ hi : i < ts.trees.length,
      closest_tree ts ls = some (ts.trees.get ⟨i, hi⟩) ∧
      (∀ j, ∀ hj : j < ts.trees.length,
        tree_distance ls.location (ts.trees.get ⟨i, hi⟩)
          ≤ tree_distance ls.location (ts.trees.get ⟨j, hj⟩)) ∧
      (∀ j, ∀ hj : j < ts.trees.length, j < i →
        tree_distance ls.location (ts.trees.get ⟨i, hi⟩)
          < tree_distance ls.location (ts.trees.get ⟨j, hj⟩)) := by
  set d := ts.trees.map (tree_distance ls.location) with hd
  have hdne : d ≠ [] := by
    rw [hd]
    simpa [List.map_eq_nil_iff] using hne
  obtain ⟨hbound, hminim, hleft⟩ := iMin_spec d hdne
  have hlen : d.length = ts.trees.length := by rw [hd]; exact List.length_map _ _
  have hb2 : iMin d < ts.trees.length := hlen ▸ hbound
  refine ⟨iMin d, hb2, ?_, ?_, ?_⟩
  · rw [closest_tree_eq ts ls hloc hload hne, ← hd,
      List.getElem?_eq_getElem hb2, List.get_eq_getElem]
  · intro j hj
    have h1 := distances_getD ls ts.trees (iMin d) hb2
    have h2 := distances_getD ls ts.trees j hj
    rw [← hd] at h1 h2
    have h3 := hminim j (hlen ▸ hj)
    rw [h1, h2] at h3
    exact h3
  · intro j hj hji
    have h1 := distances_getD ls ts.trees (iMin d) hb2
    have h2 := distances_getD ls ts.trees j hj
    rw [← hd] at h1 h2
    have h3 := hleft j hji
    rw [h1, h2] at h3
    exact h3

/-- C3: `closest_tree` returns no result whenever the position is not
locatable, or the collection is loading, or the collection is empty. -/
theorem closest_tree_guards (ts : TreeState) (ls : LocationState)
    (h : ls.locatable = false ∨ ts.loading = true ∨ ts.trees = []) :
    closest_tree ts ls = none := by
  unfold closest_tree
  rcases h with h | h | h <;> simp [h]

/-- C4: `loading` is true immediately after the fetch starts and false after
the request settles, on both the success and the failure path. -/
theorem fetch_trees_loading_lifecycle :
    (∀ s : TreeState, (fetch_trees_start s).loading = true) ∧
    (∀ (s : TreeState) (o : FetchOutcome),
      (fetch_trees_settle s o).loading = false) :=
  ⟨fun _ => rfl, fun s o => by cases o <;> rfl⟩

/-- C5: on fetch failure the trees list is unchanged and `loading` is
cleared; the resulting state differs from the prior one in the `loading` flag
only, so no error is surfaced in state. -/
theorem fetch_trees_failure_silent :
    ∀ s : TreeState,
      fetch_trees_settle s .failure = { s with loading := false } ∧
      (fetch_trees_settle s .failure).trees = s.trees ∧
      (fetch_trees_settle s .failure).loading = false :=
  fun _ => ⟨rfl, rfl, rfl⟩

/-- C6: whenever position acquisition fails — capability absent or callback
error — `locatable` becomes false and `location` keeps its prior value; in
the capability-absent case the result does not depend on any callback
outcome. -/
theorem locate_user_failure_preserves_position :
    ∀ (s : LocationState) (o : GeoOutcome),
      ((locate_user s false o).locatable = false ∧
       (locate_user s false o).location = s.location) ∧
      ((locate_user s true .failure).locatable = false ∧
       (locate_user s true .failure).location = s.location) ∧
      locate_user s false o = locate_user s false .failure :=
  fun _ o => ⟨⟨rfl, rfl⟩, ⟨rfl, rfl⟩, by cases o <;> rfl⟩

/-- C7: on successful position acquisition the location is overwritten with
the reported coordinate and `locatable` becomes true. -/
theorem locate_user_success_sets_position :
    ∀ (s : LocationState) (c : Location),
      (locate_user s true (.success c)).location = c ∧
      (locate_user s true (.success c)).locatable = true :=
  fun _ _ => ⟨rfl, rfl⟩

/-- C8: the resolver is a pure function of the pair of states, and the fetch
and geolocation updates commute: fetch-first, position-first and interleaved
orderings reach the same state and the same `closest_tree` result. -/
theorem closest_tree_order_independence :
    (∀ (ts : TreeState) (ls : LocationState),
      closest_of { treeState := ts, locState := ls } = closest_tree ts ls) ∧
    (∀ (s : AppState) (fo : FetchOutcome) (avail : Bool) (go : GeoOutcome),
      run s [.fetchStart, .fetchSettle fo, .geoCallback avail go]
        = run s [.geoCallback avail go, .fetchStart, .fetchSettle fo] ∧
      run s [.fetchStart, .geoCallback avail go, .fetchSettle fo]
        = run s [.geoCallback avail go, .fetchStart, .fetchSettle fo] ∧
      closest_of (run s [.fetchStart, .fetchSettle fo, .geoCallback avail go])
        = closest_of
            (run s [.geoCallback avail go, .fetchStart, .fetchSettle fo])) :=
  ⟨fun _ _ => rfl, fun _ _ _ _ => ⟨rfl, rfl, rfl⟩⟩

/-- C9: the source `Tree` record carries exactly the spec's `MonitoredEntity`
fields — `id`, `name`, `description`, `location` (a latitude/longitude
coordinate), `image_url` and `detail_url` (realised as `tree_url`) — witnessed
by a field-preserving bijection in both directions. -/
theorem tree_fields_match_entity :
    (∀ t : Tree,
      (treeToEntity t).id = t.id ∧
      (treeToEntity t).name = t.name ∧
      (treeToEntity t).description = t.description ∧
      (treeToEntity t).location.latitude = t.location.latitude ∧
      (treeToEntity t).location.longitude = t.location.longitude ∧
      (treeToEntity t).image_url = t.image_url ∧
      (treeToEntity t).detail_url = t.tree_url) ∧
    (∀ t : Tree, entityToTree (treeToEntity t) = t) ∧
    (∀ e : MonitoredEntity, treeToEntity (entityToTree e) = e) :=
  ⟨fun _ => ⟨rfl, rfl, rfl, rfl, rfl, rfl, rfl⟩, fun _ => rfl, fun _ => rfl⟩

/-- C10: when the guards pass, the index selected by the scan is within the
bounds of the collection and the returned value is an element of the current
tree collection. -/
theorem closest_tree_index_in_bounds (ts : TreeState) (ls : LocationState)
    (hloc : ls.locatable = true) (hload : ts.loading = false)
    (hne : ts.trees ≠ []) :
    iMin (ts.trees.map (tree_distance ls.location)) < ts.trees.length ∧
    ∃ t, closest_tree ts ls = some t ∧ t ∈ ts.trees := by
  set d := ts.trees.map (tree_distance ls.location) with hd
  have hdne : d ≠ [] := by
    rw [hd]
    simpa [List.map_eq_nil_iff] using hne
  obtain ⟨hbound, -, -⟩ := iMin_spec d hdne
  have hlen : d.length = ts.trees.length := by rw [hd]; exact List.length_map _ _
  have hb2 : iMin d < ts.trees.length := hlen ▸ hbound
  refine ⟨hb2, ts.trees.get ⟨iMin d, hb2⟩, ?_, List.get_mem _ _ _⟩
  rw [closest_tree_eq ts ls hloc hload hne, ← hd,
    List.getElem?_eq_getElem hb2, List.get_eq_getElem]

/-! ### Concrete scenarios and witnesses -/

/-- The tree "A" at coordinate `(0, 0)` from the spec's scenarios. -/
def treeA : Tree :=
  { id := "A", name := "Tree A", description := "first tree",
    location := { latitude := 0, longitude := 0 },
    image_url := "", tree_url := "" }

/-- The tree "B" at coordinate `(1, 1)` from the spec's first scenario. -/
def treeB : Tree :=
  { id := "B", name := "Tree B", description := "second tree",
    location := { latitude := 1, longitude := 1 },
    image_url := "", tree_url := "" }

/-- The tree "B" at coordinate `(0, 0)` from the spec's tie scenario. -/
def treeB0 : Tree :=
  { id := "B", name := "Tree B", description := "second tree",
    location := { latitude := 0, longitude := 0 },
    image_url := "", tree_url := "" }

/-- Locatable user position at `(0.1, 0.1)`. -/
def scenarioUser : LocationState :=
  { locatable := true, location := { latitude := 0.1, longitude := 0.1 } }

/-- Loaded collection `[A at (0,0), B at (1,1)]`. -/
def scenarioTrees : TreeState :=
  { trees := [treeA, treeB], loading := false }

/-- Locatable user position at `(0, 0)` for the tie scenario. -/
def tieUser : LocationState :=
  { locatable := true, location := { latitude := 0, longitude := 0 } }

/-- Loaded collection `[A at (0,0), B at (0,0)]` (exact tie). -/
def tieTrees : TreeState :=
  { trees := [treeA, treeB0], loading := false }

/-- Loaded one-element collection `[A]`. -/
def singleTrees : TreeState :=
  { trees := [treeA], loading := false }

/-- On a two-element distances list whose first entry is at most the second,
the scan keeps index 0. -/
theorem iMin_pair (a b : ℝ) (h : a ≤ b) : iMin [a, b] = 0 := by
  have h1 : iMinFold [a, b] 0 (0, a) = 0 := by simp [iMinFold]
  have h2 : iMinFold [a, b] 0 (1, b) = 0 := by simp [iMinFold, not_lt.mpr h]
  unfold iMin
  rw [show ([a, b] : List ℝ).enum = [(0, a), (1, b)] from rfl]
  simp only [List.foldl]
  rw [h1, h2]

/-- Witness for C1: in the scenario `[A at (0,0), B at (1,1)]` with the user
at `(0.1, 0.1)`, `closest_tree` returns tree "A", and the general minimization
theorem applies at this input. -/
theorem closest_tree_minimizes_witness :
    closest_tree scenarioTrees scenarioUser = some treeA ∧
    ∃ t, closest_tree scenarioTrees scenarioUser = some t ∧
      t ∈ scenarioTrees.trees ∧
      ∀ u ∈ scenarioTrees.trees,
        tree_distance scenarioUser.location t
          ≤ tree_distance scenarioUser.location u := by
  refine ⟨?_, closest_tree_minimizes scenarioTrees scenarioUser rfl rfl
    (by simp [scenarioTrees])⟩
  have hAB : tree_distance scenarioUser.location treeA
      ≤ tree_distance scenarioUser.location treeB := by
    simp only [tree_distance, scenarioUser, treeA, treeB]
    apply Real.sqrt_le_sqrt
    norm_num
  have hmap : scenarioTrees.trees.map (tree_distance scenarioUser.location)
      = [tree_distance scenarioUser.location treeA,
         tree_distance scenarioUser.location treeB] := rfl
  rw [closest_tree_eq _ _ rfl rfl (by simp [scenarioTrees]), hmap,
    iMin_pair _ _ hAB]
  rfl

/-- Witness for C2: in the tie scenario `[A at (0,0), B at (0,0)]` with the
user at `(0, 0)`, `closest_tree` returns tree "A" (first in order), and the
general tie-break theorem applies at this input. -/
theorem closest_tree_first_of_ties_witness :
    closest_tree tieTrees tieUser = some treeA ∧
    ∃ i, ∃ hi : i < tieTrees.trees.length,
      closest_tree tieTrees tieUser = some (tieTrees.trees.get ⟨i, hi⟩) ∧
      (∀ j, ∀ hj : j < tieTrees.trees.length,
        tree_distance tieUser.location (tieTrees.trees.get ⟨i, hi⟩)
          ≤ tree_distance tieUser.location (tieTrees.trees.get ⟨j, hj⟩)) ∧
      (∀ j, ∀ hj : j < tieTrees.trees.length, j < i →
        tree_distance tieUser.location (tieTrees.trees.get ⟨i, hi⟩)
          < tree_distance tieUser.location (tieTrees.trees.get ⟨j, hj⟩)) := by
  refine ⟨?_, closest_tree_first_of_ties tieTrees tieUser rfl rfl
    (by simp [tieTrees])⟩
  have hmap : tieTrees.trees.map (tree_distance tieUser.location)
      = [tree_distance tieUser.location treeA,
         tree_distance tieUser.location treeB0] := rfl
  have htie : tree_distance tieUser.location treeA
      ≤ tree_distance tieUser.location treeB0 :=
    le_of_eq (show tree_distance tieUser.location treeA
      = tree_distance tieUser.location treeB0 from rfl)
  rw [closest_tree_eq _ _ rfl rfl (by simp [tieTrees]), hmap,
    iMin_pair _ _ htie]
  rfl

/-- Witness for C3: with a loading collection the guard theorem yields no
result at a concrete state. -/
theorem closest_tree_guards_witness :
    closest_tree { trees := [treeA], loading := true } scenarioUser = none :=
  closest_tree_guards _ _ (Or.inr (Or.inl rfl))

/-- Witness for C10: on the one-element collection `[A]` with a locatable
user, the scanned index is in bounds and the result is an element of the
collection. -/
theorem closest_tree_index_in_bounds_witness :
    iMin (singleTrees.trees.map (tree_distance scenarioUser.location))
        < singleTrees.trees.length ∧
    ∃ t, closest_tree singleTrees scenarioUser = some t ∧
      t ∈ singleTrees.trees :=
  closest_tree_index_in_bounds singleTrees scenarioUser rfl rfl
    (by simp [singleTrees])

end DustApp
